import Mathlib

/-!
# librsync: `whole.c` and `rdiff.c`

A shallow embedding of the two source files of the repository:

* `whole.c`: the whole-file API (`rs_sig_file`, `rs_loadsig_file`, `rs_delta_file`,
  `rs_patch_file`) and the basis scan `rs_reverse_delta`;
* `rdiff.c`: the command-line front end (`isprefix`, `get_mfile`, `malloc_mfile`,
  `rdiff_sig`, `rdiff_delta`, `rdiff_patch`, `rdiff_action`).

What the two files call but do not define is treated in two ways.

* For `rs_reverse_delta` and for the commands of `rdiff.c`, the calls
  (`rs_build_hash_table`, `rs_search_for_block`, the library calls of the commands, the file
  system, `malloc`) are parameters of the embedding: the theorems hold for every behaviour
  of them.
* For the round trip through the whole-file API, the jobs that `whole.c` starts
  (`rs_sig_begin`, `rs_loadsig_begin`, `rs_delta_begin`, `rs_patch_begin`), the hash table
  and the search are modelled from the spec; each such definition says so.  The rolling
  checksum macros of `rollsum.h` follow the spec's formulas as well.

The cursor arithmetic of `rs_reverse_delta` (`fptr + block_len`, `fptr += block_len`,
`fptr += 1`) is `size_t` arithmetic and wraps modulo `2^64`; the theorems about the scan
hold for the bases whose sums `fptr + block_len` and `len + block_len` are representable
in `size_t`, as they are when the cursor lies inside the buffer and `len` and `block_len`
are below `2^63`.  The rolling checksum is computed modulo `2^16` explicitly.  A loop that
the C code may run without bound is embedded with a bound on its iterations, and the
theorems give a bound that suffices.
-/

namespace Librsync

/-! ## Result codes and in-memory files -/

/-- The result codes `rs_result` (`librsync.h` is not part of the sources): the codes the
two files name, and `RS_OTHER code` for any other code a library call may return. -/
inductive rs_result where
  | RS_DONE
  | RS_IO_ERROR
  | RS_SYNTAX_ERROR
  | RS_MEM_ERROR
  | RS_UNIMPLEMENTED
  | RS_CORRUPT
  | RS_OTHER (code : Nat)
  deriving DecidableEq, Repr

open rs_result

/-- The in-memory file `MFILE`: a buffer `src` of `len` bytes and a cursor `fptr`
(`get_mfile` and `malloc_mfile` fill the three fields). -/
structure MFILE where
  src : List Nat
  len : Nat
  fptr : Nat
  deriving DecidableEq, Repr

/-- The initialiser `{0}` of an `MFILE` variable. -/
def MFILE.zero : MFILE := ⟨[], 0, 0⟩

/-- The byte `f->src[i]`. -/
def MFILE.byte (f : MFILE) (i : Nat) : Nat := f.src.getD i 0

/-! ## Rolling checksum -/

/-- The rolling checksum state `Rollsum`: the number of bytes absorbed and the two
accumulators. -/
structure Rollsum where
  count : Nat
  s1 : Nat
  s2 : Nat
  deriving DecidableEq, Repr

/-- Modelled from the spec: `RollsumInit` (`rollsum.h` is not part of the sources),
`init(): s1=s2=0, count=0`. -/
def RollsumInit : Rollsum := ⟨0, 0, 0⟩

/-- One byte absorbed by `update`: `s1` is the sum of the bytes and `s2` the sum of the
partial sums, both modulo `2^16`. -/
def RollsumUpdate_byte (sum : Rollsum) (b : Nat) : Rollsum :=
  let s1 := (sum.s1 + b) % 65536
  ⟨sum.count + 1, s1, (sum.s2 + s1) % 65536⟩

/-- Modelled from the spec: `RollsumUpdate(sum, buf, len)` (`rollsum.h` is not part of the
sources) absorbs the first `len` bytes of `buf`: `s1` = sum of bytes in window (mod 2^16),
`s2` = sum of cumulative partial sums (mod 2^16). -/
def RollsumUpdate (sum : Rollsum) (buf : List Nat) (len : Nat) : Rollsum :=
  (buf.take len).foldl RollsumUpdate_byte sum

/-- Modelled from the spec: `RollsumRotate(sum, out, in)` (`rollsum.h` is not part of the
sources), `s1 = s1 - out_byte + in_byte; s2 = s2 - count*out_byte + s1` (using updated s1),
modulo `2^16`. -/
def RollsumRotate (sum : Rollsum) (out inb : Nat) : Rollsum :=
  let s1 := (((sum.s1 : Int) - out + inb) % 65536).toNat
  let s2 := (((sum.s2 : Int) - sum.count * out + s1) % 65536).toNat
  ⟨sum.count, s1, s2⟩

/-- Modelled from the spec: `RollsumDigest(sum)` (`rollsum.h` is not part of the sources),
the 32-bit value `(s2 << 16) | s1`. -/
def RollsumDigest (sum : Rollsum) : Nat := (sum.s2 <<< 16) ||| sum.s1

/-- The checksum of a fresh window: `init` followed by `update` over all its bytes. -/
def fresh_digest (window : List Nat) : Nat :=
  RollsumDigest (RollsumUpdate RollsumInit window window.length)

/-! ## `rs_reverse_delta` (whole.c) -/

/-- Modelled from the spec: the signature `rs_signature_t` (`sumset.h` is not part of the
sources).  `block_len` is the only field `whole.c` reads; `strong_sum_len`, the per-block
checksums `(weak, strong)` in basis block order and the hash table (one chain of block
ordinals per bucket, empty until `rs_build_hash_table` builds it) follow the spec's data
model. -/
structure rs_signature_t where
  block_len : Nat
  strong_sum_len : Nat
  block_sigs : List (Nat × List Nat)
  tag_table : List (List Nat)
  deriving DecidableEq, Repr

/-- The functions `rs_reverse_delta` calls and the sources do not define.
`rs_build_hash_table sig` is the result code of building the hash table;
`rs_search_for_block weak inbuf block_len sig` is `some match_pos` when the search reports
a match and `none` on a miss, where `inbuf` is the buffer from the pointer
`src + fptr` on. -/
structure SearchEnv where
  rs_build_hash_table : rs_signature_t → rs_result
  rs_search_for_block : Nat → List Nat → Nat → rs_signature_t → Option Nat

/-- One call of `rs_search_for_block` made by the scan: the digest and the offset passed
and what the search answered. -/
structure SearchCall where
  digest : Nat
  fptr : Nat
  answer : Option Nat
  deriving DecidableEq, Repr

/-- The variables of the scan loop, with the list of search calls made so far (most recent
first). -/
structure ScanState where
  fptr : Nat
  weak_sum : Rollsum
  match_list : Nat → Nat
  calls : List SearchCall

/-- The number of values of `size_t` on a 64-bit target: the cursor `fptr`, the length
`len` and the sums the scan forms with `block_len` are computed modulo it. -/
def SIZE_MODULUS : Nat := 2 ^ 64

/-- The sum `a + b` as `size_t` arithmetic computes it: it wraps around. -/
def size_add (a b : Nat) : Nat := (a + b) % SIZE_MODULUS

/-- The loop condition `(basic_file->fptr + new_sig->block_len) < basic_file->len`, the
sum computed in `size_t`. -/
def scan_cond (new_sig : rs_signature_t) (basic_file : MFILE) (st : ScanState) : Bool :=
  decide (size_add st.fptr new_sig.block_len < basic_file.len)

/-- The checksum the body passes to the search: computed over `block_len` bytes from
`src + fptr` when `weak_sum.count == 0`, the running one otherwise. -/
def scan_weak (new_sig : rs_signature_t) (basic_file : MFILE) (st : ScanState) : Rollsum :=
  if st.weak_sum.count = 0 then
    RollsumUpdate st.weak_sum (basic_file.src.drop st.fptr) new_sig.block_len
  else st.weak_sum

/-- One iteration of the `while` body of `rs_reverse_delta`; the cursor is advanced, and
the byte rotated in is indexed, in `size_t` arithmetic. -/
def scan_step (env : SearchEnv) (new_sig : rs_signature_t) (basic_file : MFILE)
    (st : ScanState) : ScanState :=
  let weak_sum := scan_weak new_sig basic_file st
  let answer := env.rs_search_for_block (RollsumDigest weak_sum)
    (basic_file.src.drop st.fptr) new_sig.block_len new_sig
  let call : SearchCall := ⟨RollsumDigest weak_sum, st.fptr, answer⟩
  match answer with
  | some match_pos =>
    { fptr := size_add st.fptr new_sig.block_len
      weak_sum := RollsumInit
      match_list := Function.update st.match_list (match_pos / new_sig.block_len) st.fptr
      calls := call :: st.calls }
  | none =>
    { fptr := size_add st.fptr 1
      weak_sum := RollsumRotate weak_sum (basic_file.byte st.fptr)
        (basic_file.byte (size_add st.fptr new_sig.block_len))
      match_list := st.match_list
      calls := call :: st.calls }

/-- The `while` loop of `rs_reverse_delta`, run for at most `fuel` iterations: `none` when
the loop condition still holds after `fuel` iterations. -/
def scan_loop (env : SearchEnv) (new_sig : rs_signature_t) (basic_file : MFILE) :
    Nat → ScanState → Option ScanState
  | 0, st => if scan_cond new_sig basic_file st then none else some st
  | fuel + 1, st =>
    if scan_cond new_sig basic_file st then
      scan_loop env new_sig basic_file fuel (scan_step env new_sig basic_file st)
    else some st

/-- What a call of `rs_reverse_delta` leaves behind: the result code, the cursor of
`basic_file`, `match_list`, and the search calls it made (in call order). -/
structure ReverseDelta where
  result : rs_result
  fptr : Nat
  match_list : Nat → Nat
  calls : List SearchCall

/-- The function `rs_reverse_delta(new_sig, basic_file, match_list, state)`, run with
`fuel` loop iterations at most (`none`: the loop did not finish within `fuel`). -/
def rs_reverse_delta (env : SearchEnv) (new_sig : rs_signature_t) (basic_file : MFILE)
    (match_list : Nat → Nat) (fuel : Nat) : Option ReverseDelta :=
  let weak_sum := RollsumInit
  let result := env.rs_build_hash_table new_sig
  if result ≠ RS_DONE then
    some ⟨RS_CORRUPT, basic_file.fptr, match_list, []⟩
  else
    (scan_loop env new_sig basic_file fuel ⟨basic_file.fptr, weak_sum, match_list, []⟩).map
      fun st => ⟨result, st.fptr, st.match_list, st.calls.reverse⟩

/-! ## Closed forms of the rolling checksum -/

/-- Sum of the bytes of a window. -/
def byte_sum : List Nat → Nat
  | [] => 0
  | a :: r => a + byte_sum r

/-- Sum of the partial sums of a window: the first byte counts once per byte of the
window, the last byte once. -/
def partial_sum : List Nat → Nat
  | [] => 0
  | a :: r => (r.length + 1) * a + partial_sum r

/-- The checksum state of a fresh window: `init` followed by `update` over its bytes. -/
def fresh_sum (window : List Nat) : Rollsum :=
  RollsumUpdate RollsumInit window window.length

/-! ## The scan of `rs_reverse_delta`: loop invariant -/

/-- The `block_len` bytes `src[p .. p+block_len)`. -/
def window (src : List Nat) (p block_len : Nat) : List Nat := (src.drop p).take block_len

/-- The terminator of a C string. -/
def NUL : Char := Char.ofNat 0

/-- The character `*s` a C string pointer points at: a string is the list of its
characters, the terminator follows the last one. -/
def deref (s : List Char) : Char := s.headD NUL

/-- The string a pointer denotes: the characters before the first terminator. -/
def cstr (s : List Char) : List Char := s.takeWhile (fun c => c ≠ NUL)

/-- The function `isprefix(tip, iceberg)`: the loop `while (*tip)` compares `*tip` with
`*iceberg` and advances both pointers. -/
def isprefix : List Char → List Char → Int
  | [], _ => 1
  | t :: tip, iceberg =>
    if t = NUL then 1
    else if t ≠ deref iceberg then 0
    else isprefix tip iceberg.tail

/-- The static options of `rdiff.c`: `block_len` (`-b`), `strong_len` (`-S`) and
`show_stats` (`-s`; the statistics are only logged, which is not modelled). -/
structure Options where
  block_len : Nat
  strong_len : Nat
  show_stats : Bool
  deriving DecidableEq, Repr

/-- The file system and the allocator as `get_mfile`, `persist_mfile` and `malloc_mfile`
see them: whether `rs_file_open` returns a file, the length found for a file, the bytes
`fread` delivers, whether `malloc` returns a buffer, how many bytes `fwrite` writes. -/
structure OS where
  open_read : Option String → Bool
  file_len : Option String → Nat
  fread : Option String → Nat → List Nat
  malloc : Nat → Bool
  open_write : Option String → Bool
  fwrite : Option String → List Nat → Nat

/-- The library calls of `rdiff.c` whose work is done by code that is not part of the
sources (the job engine behind `whole.c`, `rs_build_hash_table`): each gives its result
code and what it leaves in its output. -/
structure Lib where
  rs_sig_file : MFILE → MFILE → Nat → Nat → rs_result × MFILE
  rs_loadsig_file : MFILE → rs_result × rs_signature_t
  rs_build_hash_table : rs_signature_t → rs_result
  rs_delta_file : rs_signature_t → MFILE → MFILE → rs_result × MFILE
  rs_patch_file : MFILE → MFILE → MFILE → rs_result × MFILE

/-- What a command does that its caller can observe, in order. -/
inductive Event where
  | usage (error : String)
  | exit (code : rs_result)
  | get_mfile (in_file : Option String) (r : rs_result)
  | malloc_mfile (buf_len : Nat) (r : rs_result)
  | persist_mfile (out_file : Option String) (file : MFILE) (r : rs_result)
  | rs_sig_file (basis_file sig_file : MFILE) (block_len strong_len : Nat)
  | rs_loadsig_file (sig_file : MFILE)
  | rs_build_hash_table (sumset : rs_signature_t)
  | rs_delta_file (sumset : rs_signature_t) (new_file delta_file : MFILE)
  | rs_patch_file (basis_file delta_file new_file : MFILE)
  deriving DecidableEq, Repr

/-- The outcome of a command: the result it returns, or the code it calls `exit` with when
`exited`, and what it did. -/
structure Run where
  result : rs_result
  exited : Bool
  events : List Event
  deriving DecidableEq, Repr

/-- The call `poptGetArg(opcon)`: the next leftover argument, `none` (NULL) when there is
none, and the context after it. -/
def poptGetArg (opcon : List String) : Option String × List String :=
  (opcon.head?, opcon.tail)

/-- The function `get_mfile(out_file, in_file)`: the result and `*out_file` after the
call. -/
def get_mfile (os : OS) (out_file : MFILE) (in_file : Option String) : rs_result × MFILE :=
  if ¬ os.open_read in_file then (RS_IO_ERROR, out_file)
  else
    let file_len := os.file_len in_file
    if ¬ os.malloc file_len then (RS_MEM_ERROR, out_file)
    else
      let buf := os.fread in_file file_len
      let ret := buf.length
      if ret ≠ file_len then (RS_IO_ERROR, out_file)
      else (RS_DONE, ⟨buf, file_len, 0⟩)

/-- The function `persist_mfile(out_file, in_file)`. -/
def persist_mfile (os : OS) (out_file : Option String) (in_file : MFILE) : rs_result :=
  if ¬ os.open_write out_file then RS_IO_ERROR
  else
    let ret := os.fwrite out_file (in_file.src.take in_file.len)
    if ret ≠ in_file.len then RS_IO_ERROR else RS_DONE

/-- The function `malloc_mfile(file, buf_len)`: the result and `*file` after the call (the
bytes of a fresh buffer are not initialised; they are zero here). -/
def malloc_mfile (os : OS) (file : MFILE) (buf_len : Nat) : rs_result × MFILE :=
  if ¬ os.malloc buf_len then (RS_MEM_ERROR, file)
  else (RS_DONE, ⟨List.replicate buf_len 0, buf_len, 0⟩)

/-- The function `rdiff_no_more_args(opcon)`: the events of the `exit(RS_SYNTAX_ERROR)`
path when an argument is left, `none` when it returns. -/
def rdiff_no_more_args (opcon : List String) : Option (List Event) :=
  match (poptGetArg opcon).1 with
  | some _ => some [Event.usage "rdiff: too many arguments", Event.exit RS_SYNTAX_ERROR]
  | none => none

/-- The end of each command: `rdiff_no_more_args(opcon)`, then `return result`. -/
def finish (opcon : List String) (result : rs_result) (events : List Event) : Run :=
  match rdiff_no_more_args opcon with
  | some e => ⟨RS_SYNTAX_ERROR, true, events ++ e⟩
  | none => ⟨result, false, events⟩

set_option linter.unusedVariables false in
/-- The function `rdiff_sig(opcon)`. -/
def rdiff_sig (os : OS) (lib : Lib) (opts : Options) (opcon : List String) : Run :=
  let basis_file := MFILE.zero
  let sig_file := MFILE.zero
  let (basis_name, opcon) := poptGetArg opcon
  let (result, basis_file) := get_mfile os basis_file basis_name
  let ev := [Event.get_mfile basis_name result]
  let (result, sig_file) := malloc_mfile os sig_file (basis_file.len / 10)
  let ev := ev ++ [Event.malloc_mfile (basis_file.len / 10) result]
  let ev := ev ++ [Event.rs_sig_file basis_file sig_file opts.block_len opts.strong_len]
  let (result, sig_file) := lib.rs_sig_file basis_file sig_file opts.block_len opts.strong_len
  if result = RS_DONE then
    let sig_file := { sig_file with len := sig_file.fptr }
    let (sig_name, opcon) := poptGetArg opcon
    let ev := ev ++ [Event.persist_mfile sig_name sig_file (persist_mfile os sig_name sig_file)]
    finish opcon result ev
  else
    finish opcon result ev

set_option linter.unusedVariables false in
/-- The function `rdiff_delta(opcon)`. -/
def rdiff_delta (os : OS) (lib : Lib) (opts : Options) (opcon : List String) : Run :=
  let sig_file := MFILE.zero
  let new_file := MFILE.zero
  let delta_file := MFILE.zero
  match poptGetArg opcon with
  | (none, _) =>
    ⟨RS_SYNTAX_ERROR, false,
      [Event.usage "Usage for delta: rdiff [OPTIONS] delta SIGNATURE [NEWFILE [DELTA]]"]⟩
  | (some sig_name, opcon) =>
    let (r, sig_file) := get_mfile os sig_file (some sig_name)
    let ev := [Event.get_mfile (some sig_name) r, Event.rs_loadsig_file sig_file]
    let (result, sumset) := lib.rs_loadsig_file sig_file
    if result ≠ RS_DONE then ⟨result, false, ev⟩
    else
      let ev := ev ++ [Event.rs_build_hash_table sumset]
      let result := lib.rs_build_hash_table sumset
      if result ≠ RS_DONE then ⟨result, false, ev⟩
      else
        let (new_name, opcon) := poptGetArg opcon
        let (r, new_file) := get_mfile os new_file new_name
        let ev := ev ++ [Event.get_mfile new_name r]
        let (r, delta_file) := malloc_mfile os delta_file new_file.len
        let ev := ev ++ [Event.malloc_mfile new_file.len r]
        let ev := ev ++ [Event.rs_delta_file sumset new_file delta_file]
        let (result, delta_file) := lib.rs_delta_file sumset new_file delta_file
        if result = RS_DONE then
          let delta_file := { delta_file with len := delta_file.fptr }
          let (delta_name, opcon) := poptGetArg opcon
          let ev := ev ++
            [Event.persist_mfile delta_name delta_file (persist_mfile os delta_name delta_file)]
          finish opcon result ev
        else
          finish opcon result ev

set_option linter.unusedVariables false in
/-- The function `rdiff_patch(opcon)`. -/
def rdiff_patch (os : OS) (lib : Lib) (opts : Options) (opcon : List String) : Run :=
  let basis_file := MFILE.zero
  let delta_file := MFILE.zero
  let new_file := MFILE.zero
  match poptGetArg opcon with
  | (none, _) =>
    ⟨RS_SYNTAX_ERROR, false,
      [Event.usage "Usage for patch: rdiff [OPTIONS] patch BASIS [DELTA [NEW]]"]⟩
  | (some basis_name, opcon) =>
    let (r, basis_file) := get_mfile os basis_file (some basis_name)
    let ev := [Event.get_mfile (some basis_name) r]
    let (delta_name, opcon) := poptGetArg opcon
    let (r, delta_file) := get_mfile os delta_file delta_name
    let ev := ev ++ [Event.get_mfile delta_name r]
    let (r, new_file) := malloc_mfile os new_file (basis_file.len + delta_file.len)
    let ev := ev ++ [Event.malloc_mfile (basis_file.len + delta_file.len) r]
    let ev := ev ++ [Event.rs_patch_file basis_file delta_file new_file]
    let (result, new_file) := lib.rs_patch_file basis_file delta_file new_file
    if result = RS_DONE then
      let new_file := { new_file with len := new_file.fptr }
      let (new_name, opcon) := poptGetArg opcon
      let ev := ev ++
        [Event.persist_mfile new_name new_file (persist_mfile os new_name new_file)]
      finish opcon result ev
    else
      finish opcon result ev

/-- The message `rdiff_action` prints when no command is chosen. -/
def no_action_message : String :=
  "rdiff: You must specify an action: `signature', `delta', or `patch'."

/-- The function `rdiff_action(opcon)`. -/
def rdiff_action (os : OS) (lib : Lib) (opts : Options) (opcon : List String) : Run :=
  match poptGetArg opcon with
  | (none, _) => ⟨RS_SYNTAX_ERROR, false, [Event.usage no_action_message]⟩
  | (some action, opcon) =>
    if isprefix action.data "signature".data ≠ 0 then rdiff_sig os lib opts opcon
    else if isprefix action.data "delta".data ≠ 0 then rdiff_delta os lib opts opcon
    else if isprefix action.data "patch".data ≠ 0 then rdiff_patch os lib opts opcon
    else ⟨RS_SYNTAX_ERROR, false, [Event.usage no_action_message]⟩

/-! ## Outcomes of `rdiff_action` -/

/-- The action argument `action` abbreviates the command name `name`: as C strings, it is
a prefix of it. -/
def abbreviates (action name : String) : Prop := cstr action.data <+: cstr name.data

/-- The outcome of `rdiff_action` when it runs no command. -/
def no_command : Run := ⟨RS_SYNTAX_ERROR, false, [Event.usage no_action_message]⟩

/-! ## Concrete file systems and libraries, and the sizes of the streams -/

/-- A file system in which no file can be opened for reading. -/
def os_unreadable : OS where
  open_read := fun _ => false
  file_len := fun _ => 0
  fread := fun _ _ => []
  malloc := fun _ => true
  open_write := fun _ => true
  fwrite := fun _ data => data.length

/-- A file system in which every input file holds 64 bytes of value `0x41` and no file can
be opened for writing. -/
def os_unwritable : OS where
  open_read := fun _ => true
  file_len := fun _ => 64
  fread := fun _ n => List.replicate n 0x41
  malloc := fun _ => true
  open_write := fun _ => false
  fwrite := fun _ _ => 0

/-- A file system in which every input file holds 64 bytes of value `0x41` and every write
succeeds. -/
def os_basis64 : OS where
  open_read := fun _ => true
  file_len := fun _ => 64
  fread := fun _ n => List.replicate n 0x41
  malloc := fun _ => true
  open_write := fun _ => true
  fwrite := fun _ data => data.length

/-- A library whose operations all report `RS_DONE`, write nothing, and load a signature
of zero blocks. -/
def lib_done : Lib where
  rs_sig_file := fun _ sig_file _ _ => (RS_DONE, sig_file)
  rs_loadsig_file := fun _ => (RS_DONE, ⟨16, 8, [], []⟩)
  rs_build_hash_table := fun _ => RS_DONE
  rs_delta_file := fun _ _ delta_file => (RS_DONE, delta_file)
  rs_patch_file := fun _ _ new_file => (RS_DONE, new_file)

/-- The library `lib_done` with a hash table that cannot be allocated. -/
def lib_no_memory : Lib :=
  { lib_done with rs_build_hash_table := fun _ => RS_MEM_ERROR }

/-- Modelled from the spec: the size of the signature stream (the job behind `rs_sig_file`
is not part of the sources), a header of `header_len` bytes followed by one record of
`4 + strong_len` bytes (weak checksum, truncated strong checksum) for each of the
`ceil(L / block_len)` blocks of a basis of `L` bytes. -/
def signature_stream_size (header_len L block_len strong_len : Nat) : Nat :=
  header_len + ((L + block_len - 1) / block_len) * (4 + strong_len)

/-- Modelled from the spec: the size of a delta stream in which nothing matches (the job
behind `rs_delta_file` is not part of the sources): a header of `header_len` bytes, Literal
instructions whose length fields take `literal_headers` bytes in all and which carry the
`n` bytes of the new file inline, and an end-of-stream marker of `end_extra + 1` bytes. -/
def literal_delta_stream_size (header_len literal_headers end_extra n : Nat) : Nat :=
  header_len + (literal_headers + n) + (end_extra + 1)

/-! ## A concrete basis for the scan -/

/-- A search that reports a match at `match_pos = 0` exactly on the window `[1, 2]`, with
a hash table that is always built. -/
def demo_env : SearchEnv where
  rs_build_hash_table := fun _ => RS_DONE
  rs_search_for_block := fun _ inbuf block_len _ =>
    if inbuf.take block_len = [1, 2] then some 0 else none

/-- A signature with blocks of 2 bytes. -/
def demo_sig : rs_signature_t := ⟨2, 8, [], []⟩

/-- A basis of 6 bytes, cursor at 0. -/
def demo_basis : MFILE := ⟨[9, 1, 2, 1, 2, 7], 6, 0⟩

/-- A position map whose entries all start at 99. -/
def demo_match_list : Nat → Nat := fun _ => 99

/-- A basis of exactly one block, the one the search of `demo_env` matches. -/
def demo_one_block : MFILE := ⟨[1, 2], 2, 0⟩

/-! ## The whole-file API of `whole.c` over the jobs of the spec -/

/-- Modelled from the spec: the strong checksum of a block (the digest code is not part of
the sources), a digest of the block's bytes truncated to `strong_len` bytes.  The digest
function itself is a parameter. -/
def rs_calc_strong_sum (digest : List Nat → List Nat) (strong_len : Nat) (block : List Nat) :
    List Nat :=
  (digest block).take strong_len

/-- Modelled from the spec: the weak checksum of a block (the checksum code is not part of
the sources), the rolling checksum of a fresh window over the block's bytes. -/
def rs_calc_weak_sum (block : List Nat) : Nat := fresh_digest block

/-- Consecutive chunks of `n` elements, the last one possibly shorter; at most `fuel`
chunks. -/
def chunks (n : Nat) : Nat → List Nat → List (List Nat)
  | 0, _ => []
  | fuel + 1, l => if l = [] then [] else l.take n :: chunks n fuel (l.drop n)

/-- Modelled from the spec: the partition of the basis into consecutive blocks of
`block_len` bytes (final block may be shorter, still included). -/
def basis_blocks (block_len : Nat) (basis : List Nat) : List (List Nat) :=
  chunks block_len basis.length basis

/-- Modelled from the spec: the signature stream, by the data it carries (its byte layout
is not given): the header's `block_len` and `strong_len` and one record
(weak checksum, truncated strong checksum) per block, in basis block order. -/
structure SignatureStream where
  block_len : Nat
  strong_len : Nat
  records : List (Nat × List Nat)
  deriving DecidableEq, Repr

/-- Modelled from the spec: an instruction of a delta, `Copy{basis_offset, length}` or
`Literal{length}` with its inline bytes.  A delta stream is the list of its instructions
(header and end marker are implicit in the list). -/
inductive Instruction where
  | Copy (basis_offset length : Nat)
  | Literal (bytes : List Nat)
  deriving DecidableEq, Repr

/-- Modelled from the spec: `rs_whole_run(job, in_file, out_file)` (`rs_job_drive` and the
file buffers are not part of the sources): the job is driven until it completes, over the
whole input; a job is the function from its input to its result code and its output. -/
def rs_whole_run {α β : Type} (job : α → β) (in_file : α) : β := job in_file

/-- Modelled from the spec: the signature job `rs_sig_begin(new_block_len, strong_len)`
(not part of the sources): for each block of the basis compute weak and strong checksums
and append them in order. -/
def rs_sig_begin (digest : List Nat → List Nat) (new_block_len strong_len : Nat)
    (basis : List Nat) : rs_result × SignatureStream :=
  (RS_DONE, ⟨new_block_len, strong_len,
    (basis_blocks new_block_len basis).map fun block =>
      (rs_calc_weak_sum block, rs_calc_strong_sum digest strong_len block)⟩)

/-- The function `rs_sig_file(old_file, sig_file, new_block_len, strong_len, stats)` of
`whole.c`: the result code and what is written to `sig_file`. -/
def rs_sig_file (digest : List Nat → List Nat) (old_file : List Nat)
    (new_block_len strong_len : Nat) : rs_result × SignatureStream :=
  let job := rs_sig_begin digest new_block_len strong_len
  let r := rs_whole_run job old_file
  r

/-- Modelled from the spec: the load job `rs_loadsig_begin(sumset)` (not part of the
sources): the signature held by the stream, its hash table not built yet. -/
def rs_loadsig_begin (sig_stream : SignatureStream) : rs_result × rs_signature_t :=
  (RS_DONE, ⟨sig_stream.block_len, sig_stream.strong_len, sig_stream.records, []⟩)

/-- The function `rs_loadsig_file(sig_file, sumset, stats)` of `whole.c`: the result code
and the signature left in `*sumset`. -/
def rs_loadsig_file (sig_file : SignatureStream) : rs_result × rs_signature_t :=
  let job := rs_loadsig_begin
  let r := rs_whole_run job sig_file
  r

/-- The first of `p`, `2 * p`, `4 * p`, ... that is not below `count`, within `fuel`
doublings. -/
def next_power (count : Nat) : Nat → Nat → Nat
  | 0, p => p
  | fuel + 1, p => if count ≤ p then p else next_power count fuel (2 * p)

/-- Modelled from the spec: the number of buckets, the least power of two not below the
number of blocks. -/
def table_size (count : Nat) : Nat := next_power count count 1

/-- The stored weak checksum of block `i`. -/
def block_weak (sig : rs_signature_t) (i : Nat) : Nat := (sig.block_sigs.getD i (0, [])).1

/-- Modelled from the spec: `rs_build_hash_table(sig)` (not part of the sources): the chain
of bucket `b` lists, in basis order, the ordinals of the blocks with
`weak_checksum mod table_size = b`. -/
def rs_build_hash_table (sig : rs_signature_t) : rs_result × rs_signature_t :=
  let size := table_size sig.block_sigs.length
  (RS_DONE, { sig with
    tag_table := (List.range size).map fun bucket =>
      (List.range sig.block_sigs.length).filter fun i =>
        decide (block_weak sig i % size = bucket) })

/-- The test the search applies to candidate `i`: the stored weak checksum first, then,
only on a weak match, the strong checksum of the window against the stored one. -/
def candidate_matches (digest : List Nat → List Nat) (sig : rs_signature_t) (weak_sum : Nat)
    (block : List Nat) (i : Nat) : Bool :=
  match sig.block_sigs[i]? with
  | some (weak, strong) =>
    weak == weak_sum && strong == rs_calc_strong_sum digest sig.strong_sum_len block
  | none => false

/-- Modelled from the spec: `rs_search_for_block(weak_sum, inbuf, block_len, sig, stats,
match_where)` (`search.c` is not part of the sources): look up the bucket of the weak
checksum and take the first candidate of its chain whose weak and strong checksums both
match; the answer is the byte offset `ordinal * block_len` of the block. -/
def rs_search_for_block (digest : List Nat → List Nat) (weak_sum : Nat) (inbuf : List Nat)
    (block_len : Nat) (sig : rs_signature_t) : Option Nat :=
  let chain := sig.tag_table.getD (weak_sum % sig.tag_table.length) []
  (chain.find? (candidate_matches digest sig weak_sum (inbuf.take block_len))).map
    fun ordinal => ordinal * sig.block_len

/-- Modelled from the spec: a pending literal run flushed as `Literal` instructions of at
most `literal_max` bytes each. -/
def flush_literal (literal_max : Nat) (pending : List Nat) : List Instruction :=
  (chunks literal_max pending.length pending).map Instruction.Literal

/-- Modelled from the spec: the delta encoder (not part of the sources), for at most `fuel`
steps.  With fewer than `block_len` bytes left the rest is flushed as a final literal; with
a full window the block is searched: on a match the pending literal is flushed, a `Copy`
of the block is emitted and the window is reset; on a miss the oldest byte joins the
pending literal and the window rotates by one byte (when the input ends with this window
no byte comes in and the rotated checksum is not used). -/
def delta_loop (digest : List Nat → List Nat) (sig : rs_signature_t) (literal_max : Nat) :
    Nat → List Nat → List Nat → Rollsum → Option (List Instruction)
  | 0, _, _, _ => none
  | fuel + 1, input, pending, weak_sum =>
    if input.length < sig.block_len then
      some (flush_literal literal_max (pending ++ input))
    else
      let weak_sum :=
        if weak_sum.count = 0 then RollsumUpdate weak_sum input sig.block_len else weak_sum
      match rs_search_for_block digest (RollsumDigest weak_sum) input sig.block_len sig with
      | some match_pos =>
        (delta_loop digest sig literal_max fuel (input.drop sig.block_len) [] RollsumInit).map
          fun rest =>
            flush_literal literal_max pending ++ Instruction.Copy match_pos sig.block_len :: rest
      | none =>
        delta_loop digest sig literal_max fuel input.tail (pending ++ [input.headD 0])
          (RollsumRotate weak_sum (input.headD 0) (input.getD sig.block_len 0))

/-- Modelled from the spec: the delta job `rs_delta_begin(sig)` (not part of the sources):
the encoder run over the whole new file; `none` when it does not finish (it always
finishes when `block_len >= 1`). -/
def rs_delta_begin (digest : List Nat → List Nat) (literal_max : Nat) (sig : rs_signature_t)
    (new_file : List Nat) : Option (rs_result × List Instruction) :=
  (delta_loop digest sig literal_max (new_file.length + 1) new_file [] RollsumInit).map
    fun delta => (RS_DONE, delta)

/-- The function `rs_delta_file(sig, new_file, delta_file, stats)` of `whole.c`: the result
code and what is written to `delta_file`. -/
def rs_delta_file (digest : List Nat → List Nat) (literal_max : Nat) (sig : rs_signature_t)
    (new_file : List Nat) : Option (rs_result × List Instruction) :=
  let job := rs_delta_begin digest literal_max sig
  let r := rs_whole_run job new_file
  r

/-- Modelled from the spec: the patch decoder (not part of the sources): a `Copy` is
validated (`basis_offset + length <= basis size`, else the job ends with `RS_CORRUPT`) and
copies that basis range to the output, a `Literal` copies its bytes to the output. -/
def patch_loop (basis : List Nat) : List Instruction → List Nat → rs_result × List Nat
  | [], out => (RS_DONE, out)
  | Instruction.Copy basis_offset length :: rest, out =>
    if basis_offset + length ≤ basis.length then
      patch_loop basis rest (out ++ (basis.drop basis_offset).take length)
    else (RS_CORRUPT, out)
  | Instruction.Literal bytes :: rest, out => patch_loop basis rest (out ++ bytes)

/-- Modelled from the spec: the patch job `rs_patch_begin(rs_file_copy_cb, basis_file)`
(not part of the sources): the decoder run over the whole delta, with an empty output to
start with. -/
def rs_patch_begin (basis_file : List Nat) (delta : List Instruction) :
    rs_result × List Nat :=
  patch_loop basis_file delta []

/-- The function `rs_patch_file(basis_file, delta_file, new_file, stats)` of `whole.c`: the
result code and what is written to `new_file`. -/
def rs_patch_file (basis_file : List Nat) (delta_file : List Instruction) :
    rs_result × List Nat :=
  let job := rs_patch_begin basis_file
  let r := rs_whole_run job delta_file
  r

/-! ## The round trip, the spec's scenario, and windows with one weak checksum -/

/-- The round trip of the claim: the signature `rs_sig_file` writes for `B` is loaded with
`rs_loadsig_file` and indexed with `rs_build_hash_table`, `rs_delta_file` writes a delta
for `N` against it, and `rs_patch_file` applied to `B` and that delta returns `RS_DONE`
and writes exactly `N`. -/
def round_trip (digest : List Nat → List Nat) (literal_max : Nat) (B N : List Nat)
    (block_len strong_len : Nat) : Prop :=
  ∃ S sumset sig D,
    rs_sig_file digest B block_len strong_len = (RS_DONE, S) ∧
    rs_loadsig_file S = (RS_DONE, sumset) ∧
    rs_build_hash_table sumset = (RS_DONE, sig) ∧
    rs_delta_file digest literal_max sig N = some (RS_DONE, D) ∧
    rs_patch_file B D = (RS_DONE, N)

/-- The spec's scenario: a basis of 64 bytes of value `0x41`. -/
def scenario_basis : List Nat := List.replicate 64 0x41

/-- The spec's scenario: the same 64 bytes with bytes 30 to 33 changed to `0x42`. -/
def scenario_new : List Nat :=
  List.replicate 30 0x41 ++ List.replicate 4 0x42 ++ List.replicate 30 0x41

/-- The delta of the spec's scenario: a copy of block 0, the literal bytes 16 to 33 (in
runs of at most 8), a copy of block 0 and the final 14 literal bytes. -/
def scenario_delta : List Instruction :=
  [Instruction.Copy 0 16,
   Instruction.Literal (List.replicate 8 0x41),
   Instruction.Literal (List.replicate 6 0x41 ++ [0x42, 0x42]),
   Instruction.Literal [0x42, 0x42],
   Instruction.Copy 0 16,
   Instruction.Literal (List.replicate 8 0x41),
   Instruction.Literal (List.replicate 6 0x41)]

/-- A family of 289 windows of 4 bytes with the same weak checksum: byte sum 200 and sum
of partial sums 500 for every `i < 289`. -/
def collision_family (i : Nat) : List Nat :=
  [i / 17, 100 - 2 * (i / 17) + i % 17, 100 + i / 17 - 2 * (i % 17), i % 17]

/-! # Theorems

## The rolling checksum -/

theorem byte_sum_append (r : List Nat) (b : Nat) : byte_sum (r ++ [b]) = byte_sum r + b := by
  induction r with
  | nil => simp [byte_sum]
  | cons a r ih => simp [byte_sum, ih]; omega

theorem partial_sum_append (r : List Nat) (b : Nat) :
    partial_sum (r ++ [b]) = partial_sum r + byte_sum r + b := by
  induction r with
  | nil => simp [partial_sum, byte_sum]
  | cons a r ih =>
    show ((r ++ [b]).length + 1) * a + partial_sum (r ++ [b]) =
      ((r.length + 1) * a + partial_sum r) + (a + byte_sum r) + b
    rw [ih, List.length_append, List.length_singleton]
    ring

theorem foldl_update_byte (w : List Nat) (st : Rollsum) (hs1 : st.s1 < 65536)
    (hs2 : st.s2 < 65536) :
    w.foldl RollsumUpdate_byte st =
      ⟨st.count + w.length, (st.s1 + byte_sum w) % 65536,
        (st.s2 + w.length * st.s1 + partial_sum w) % 65536⟩ := by
  induction w generalizing st with
  | nil =>
    simp only [List.foldl_nil, List.length_nil, byte_sum, partial_sum, Nat.add_zero,
      Nat.zero_mul, Nat.mod_eq_of_lt hs1, Nat.mod_eq_of_lt hs2]
  | cons a r ih =>
    rw [List.foldl_cons, ih _ (Nat.mod_lt _ (by decide)) (Nat.mod_lt _ (by decide))]
    simp only [RollsumUpdate_byte, List.length_cons, byte_sum, partial_sum, Rollsum.mk.injEq]
    refine ⟨by omega, by omega, ?_⟩
    have h1 : (st.s1 + a) % 65536 ≡ st.s1 + a [MOD 65536] := Nat.mod_modEq _ _
    have h2 : (st.s2 + (st.s1 + a) % 65536) % 65536 ≡ st.s2 + (st.s1 + a) [MOD 65536] :=
      (Nat.mod_modEq _ _).trans (Nat.ModEq.add_left _ h1)
    have h3 : (st.s2 + (st.s1 + a) % 65536) % 65536 + r.length * ((st.s1 + a) % 65536)
        + partial_sum r ≡ st.s2 + (st.s1 + a) + r.length * (st.s1 + a) + partial_sum r
        [MOD 65536] := (h2.add (h1.mul_left _)).add_right _
    have h4 : st.s2 + (st.s1 + a) + r.length * (st.s1 + a) + partial_sum r =
        st.s2 + (r.length + 1) * st.s1 + ((r.length + 1) * a + partial_sum r) := by ring
    rw [h4] at h3
    exact h3

theorem fresh_sum_eq (w : List Nat) :
    fresh_sum w = ⟨w.length, byte_sum w % 65536, partial_sum w % 65536⟩ := by
  unfold fresh_sum RollsumUpdate
  rw [List.take_length, foldl_update_byte w RollsumInit (by decide) (by decide)]
  simp [RollsumInit]

theorem fresh_sum_count (w : List Nat) : (fresh_sum w).count = w.length := by
  rw [fresh_sum_eq]

/-- Sliding a fresh window by one byte with `rotate` gives the fresh checksum of the slid
window. -/
theorem rotate_fresh (a b : Nat) (r : List Nat) :
    RollsumRotate (fresh_sum (a :: r)) a b = fresh_sum (r ++ [b]) := by
  rw [fresh_sum_eq, fresh_sum_eq, byte_sum_append, partial_sum_append]
  simp only [RollsumRotate, byte_sum, partial_sum, List.length_cons, List.length_append,
    List.length_singleton, Rollsum.mk.injEq, true_and]
  have e1 : ((((a + byte_sum r) % 65536 : Nat) : Int) - a + b) % 65536
      = (((byte_sum r + b) % 65536 : Nat) : Int) := by omega
  refine ⟨by simp, by omega, ?_⟩
  rw [e1]
  push_cast
  omega

/-! ## The scan of `rs_reverse_delta` -/

theorem window_cons (src : List Nat) (p k : Nat) (h : p + (k + 1) < src.length) :
    window src p (k + 1) = src.getD p 0 :: window src (p + 1) k := by
  have hp : p < src.length := by omega
  unfold window
  rw [List.drop_eq_getElem_cons hp, List.take_succ_cons]
  simp [List.getD_eq_getElem?_getD, List.getElem?_eq_getElem hp]

theorem window_snoc (src : List Nat) (p k : Nat) (h : p + k < src.length) :
    window src p (k + 1) = window src p k ++ [src.getD (p + k) 0] := by
  unfold window
  rw [List.take_succ, List.getElem?_drop, List.getD_eq_getElem?_getD,
    List.getElem?_eq_getElem h]
  simp

theorem update_fresh (src : List Nat) (p k : Nat) :
    RollsumUpdate RollsumInit (src.drop p) k = fresh_sum (window src p k) := by
  unfold fresh_sum RollsumUpdate window
  rw [List.take_length]

theorem fresh_digest_eq (w : List Nat) : fresh_digest w = RollsumDigest (fresh_sum w) := rfl

/-- When the hash table cannot be built, `rs_reverse_delta` returns at once. -/
theorem rs_reverse_delta_build_failed (env : SearchEnv) (new_sig : rs_signature_t)
    (basic_file : MFILE) (match_list : Nat → Nat) (fuel : Nat)
    (hbuild : env.rs_build_hash_table new_sig ≠ RS_DONE) :
    rs_reverse_delta env new_sig basic_file match_list fuel =
      some ⟨RS_CORRUPT, basic_file.fptr, match_list, []⟩ := by
  simp [rs_reverse_delta, hbuild]

theorem isprefix_zero_or_one (tip iceberg : List Char) :
    isprefix tip iceberg = 0 ∨ isprefix tip iceberg = 1 := by
  induction tip generalizing iceberg with
  | nil => exact Or.inr rfl
  | cons t tip ih =>
    unfold isprefix
    split_ifs
    · exact Or.inr rfl
    · exact Or.inl rfl
    · exact ih _

theorem isprefix_eq_one_iff (tip iceberg : List Char) :
    isprefix tip iceberg = 1 ↔ cstr tip <+: cstr iceberg := by
  induction tip generalizing iceberg with
  | nil => simp [cstr, isprefix]
  | cons t tip ih =>
    unfold isprefix
    by_cases ht : t = NUL
    · simp [ht, cstr]
    · rw [if_neg ht]
      have hct : cstr (t :: tip) = t :: cstr tip := by simp [cstr, ht]
      cases iceberg with
      | nil =>
        have : t ≠ deref [] := ht
        simp [this, hct, cstr, ht]
      | cons i rest =>
        by_cases hti : t = i
        · subst hti
          have hci : cstr (t :: rest) = t :: cstr rest := by simp [cstr, ht]
          simp only [deref, List.headD_cons, ne_eq, not_true_eq_false, if_false, List.tail_cons,
            hct, hci, ih rest, List.cons_prefix_cons, true_and]
        · have hne : t ≠ deref (i :: rest) := hti
          rw [if_pos hne]
          by_cases hi : i = NUL
          · simp [hct, cstr, hi, ht]
          · have hci : cstr (i :: rest) = i :: cstr rest := by simp [cstr, hi]
            simp [hct, hci, List.cons_prefix_cons, hti]

theorem isprefix_ne_zero_iff (action name : String) :
    isprefix action.data name.data ≠ 0 ↔ abbreviates action name := by
  unfold abbreviates
  rw [← isprefix_eq_one_iff]
  rcases isprefix_zero_or_one action.data name.data with h | h <;> simp [h]

theorem finish_events (opcon : List String) (result : rs_result) (events : List Event) :
    events <+: (finish opcon result events).events := by
  unfold finish
  split
  · exact List.prefix_append _ _
  · exact List.prefix_refl _

theorem finish_ne_no_command (opcon : List String) (result : rs_result) (events : List Event)
    (e : Event) (rest : List Event) (he : events = e :: rest)
    (hne : e ≠ Event.usage no_action_message) :
    finish opcon result events ≠ no_command := by
  intro h
  have hp := finish_events opcon result events
  rw [h, he] at hp
  obtain ⟨t, ht⟩ := hp
  simp only [no_command, List.cons_append, List.cons.injEq] at ht
  exact hne ht.1

theorem rdiff_sig_ne_no_command (os : OS) (lib : Lib) (opts : Options)
    (opcon : List String) : rdiff_sig os lib opts opcon ≠ no_command := by
  unfold rdiff_sig
  simp only
  split_ifs <;> exact finish_ne_no_command _ _ _ _ _ rfl (by simp)

theorem rdiff_delta_ne_no_command (os : OS) (lib : Lib) (opts : Options)
    (opcon : List String) : rdiff_delta os lib opts opcon ≠ no_command := by
  unfold rdiff_delta
  simp only
  split
  · simp [no_command, no_action_message]
  · split_ifs
    · simp [no_command]
    · simp [no_command]
    · exact finish_ne_no_command _ _ _ _ _ rfl (by simp)
    · exact finish_ne_no_command _ _ _ _ _ rfl (by simp)

theorem rdiff_patch_ne_no_command (os : OS) (lib : Lib) (opts : Options)
    (opcon : List String) : rdiff_patch os lib opts opcon ≠ no_command := by
  unfold rdiff_patch
  simp only
  split
  · simp [no_command, no_action_message]
  · split_ifs <;> exact finish_ne_no_command _ _ _ _ _ rfl (by simp)

theorem abbreviates_first (action name : String) (c : Char) (rest : List Char)
    (h : abbreviates action name) (hc : cstr action.data = c :: rest) :
    (cstr name.data).head? = some c := by
  unfold abbreviates at h
  rw [hc] at h
  obtain ⟨t, ht⟩ := h
  rw [← ht]
  rfl

theorem rdiff_action_cons (os : OS) (lib : Lib) (opts : Options) (action : String)
    (rest : List String) :
    rdiff_action os lib opts (action :: rest) =
      if isprefix action.data "signature".data ≠ 0 then rdiff_sig os lib opts rest
      else if isprefix action.data "delta".data ≠ 0 then rdiff_delta os lib opts rest
      else if isprefix action.data "patch".data ≠ 0 then rdiff_patch os lib opts rest
      else no_command := rfl

/-- C4. `isprefix(tip, iceberg)` returns 1 exactly when `tip` is a prefix of `iceberg` (and
0 otherwise); a non-empty action abbreviates at most one of the three command names;
`rdiff_action` returns `RS_SYNTAX_ERROR` with no command run exactly when the action is
absent or abbreviates none of the names; otherwise its outcome is that of one command, one
whose name the action abbreviates: `rdiff_sig` for a prefix of "signature" (the empty
action included), else `rdiff_delta` for a prefix of "delta", else `rdiff_patch` for a
prefix of "patch". -/
theorem rdiff_action_dispatch (os : OS) (lib : Lib) (opts : Options) (opcon : List String) :
    (∀ tip iceberg : List Char,
      ( isprefix tip iceberg = 1 ↔ cstr tip <+: cstr iceberg) ∧
      ( isprefix tip iceberg = 0 ↔ ¬ cstr tip <+: cstr iceberg)) ∧
    (∀ action : String, cstr action.data ≠ [] →
      ¬ (abbreviates action "signature" ∧ abbreviates action "delta") ∧
      ¬ (abbreviates action "signature" ∧ abbreviates action "patch") ∧
      ¬ (abbreviates action "delta" ∧ abbreviates action "patch")) ∧
    (rdiff_action os lib opts opcon = no_command ↔
      opcon = [] ∨ ∃ action rest, opcon = action :: rest ∧
        ¬ abbreviates action "signature" ∧ ¬ abbreviates action "delta" ∧
        ¬ abbreviates action "patch") ∧
    (∀ action rest, opcon = action :: rest →
      (abbreviates action "signature" →
        rdiff_action os lib opts opcon = rdiff_sig os lib opts rest) ∧
      (¬ abbreviates action "signature" → abbreviates action "delta" →
        rdiff_action os lib opts opcon = rdiff_delta os lib opts rest) ∧
      (¬ abbreviates action "signature" → ¬ abbreviates action "delta" →
        abbreviates action "patch" →
        rdiff_action os lib opts opcon = rdiff_patch os lib opts rest)) := by
  refine ⟨?_, ?_, ?_, ?_⟩
  · intro tip iceberg
    refine ⟨isprefix_eq_one_iff tip iceberg, ?_⟩
    rw [← isprefix_eq_one_iff]
    rcases isprefix_zero_or_one tip iceberg with h | h <;> simp [h]
  · intro action hne
    cases hc : cstr action.data with
    | nil => exact absurd hc hne
    | cons c rest =>
      refine ⟨?_, ?_, ?_⟩ <;>
      · rintro ⟨h1, h2⟩
        have e1 := abbreviates_first _ _ _ _ h1 hc
        have e2 := abbreviates_first _ _ _ _ h2 hc
        have e3 := e1.trans e2.symm
        revert e3
        decide
  · cases opcon with
    | nil => simp [rdiff_action, poptGetArg, no_command]
    | cons action rest =>
      rw [rdiff_action_cons]
      have hr2 : (action :: rest = [] ∨ ∃ a r, action :: rest = a :: r ∧
          ¬ abbreviates a "signature" ∧ ¬ abbreviates a "delta" ∧
          ¬ abbreviates a "patch") ↔
          (¬ abbreviates action "signature" ∧ ¬ abbreviates action "delta" ∧
            ¬ abbreviates action "patch") := by
        constructor
        · rintro (h | ⟨a, r, e, h⟩)
          · exact absurd h (List.cons_ne_nil _ _)
          · rw [(List.cons.inj e).1]
            exact h
        · intro h
          exact Or.inr ⟨action, rest, rfl, h⟩
      rw [hr2]
      by_cases h1 : abbreviates action "signature"
      · rw [if_pos ((isprefix_ne_zero_iff _ _).2 h1)]
        exact ⟨fun h => absurd h (rdiff_sig_ne_no_command _ _ _ _), fun h => absurd h1 h.1⟩
      · rw [if_neg (mt (isprefix_ne_zero_iff _ _).1 h1)]
        by_cases h2 : abbreviates action "delta"
        · rw [if_pos ((isprefix_ne_zero_iff _ _).2 h2)]
          exact ⟨fun h => absurd h (rdiff_delta_ne_no_command _ _ _ _),
            fun h => absurd h2 h.2.1⟩
        · rw [if_neg (mt (isprefix_ne_zero_iff _ _).1 h2)]
          by_cases h3 : abbreviates action "patch"
          · rw [if_pos ((isprefix_ne_zero_iff _ _).2 h3)]
            exact ⟨fun h => absurd h (rdiff_patch_ne_no_command _ _ _ _),
              fun h => absurd h3 h.2.2⟩
          · rw [if_neg (mt (isprefix_ne_zero_iff _ _).1 h3)]
            exact ⟨fun _ => ⟨h1, h2, h3⟩, fun _ => rfl⟩
  · rintro action rest rfl
    rw [rdiff_action_cons]
    refine ⟨fun h1 => ?_, fun h1 h2 => ?_, fun h1 h2 h3 => ?_⟩
    · rw [if_pos ((isprefix_ne_zero_iff _ _).2 h1)]
    · rw [if_neg (mt (isprefix_ne_zero_iff _ _).1 h1),
        if_pos ((isprefix_ne_zero_iff _ _).2 h2)]
    · rw [if_neg (mt (isprefix_ne_zero_iff _ _).1 h1),
        if_neg (mt (isprefix_ne_zero_iff _ _).1 h2),
        if_pos ((isprefix_ne_zero_iff _ _).2 h3)]

/-! ## Error results and buffer sizes of the commands -/

/-- C2 (the failing input). With a hash table that cannot be allocated
(`rs_build_hash_table` returns `RS_MEM_ERROR`), `rdiff_delta` returns `RS_MEM_ERROR` without
calling `rs_delta_file`, but `rs_reverse_delta` returns `RS_CORRUPT`, with no search made. -/
theorem build_hash_table_failure_results (search : Nat → List Nat → Nat → rs_signature_t →
    Option Nat) (new_sig : rs_signature_t) (basic_file : MFILE) (match_list : Nat → Nat)
    (fuel : Nat) :
    rdiff_delta os_basis64 lib_no_memory ⟨16, 8, false⟩ ["sig", "new", "delta"] =
      ⟨RS_MEM_ERROR, false,
        [Event.get_mfile (some "sig") RS_DONE,
          Event.rs_loadsig_file ⟨List.replicate 64 0x41, 64, 0⟩,
          Event.rs_build_hash_table ⟨16, 8, [], []⟩]⟩ ∧
    (rs_reverse_delta ⟨fun _ => RS_MEM_ERROR, search⟩ new_sig basic_file match_list fuel).map
        (fun r => (r.result, r.fptr, r.calls)) = some (RS_CORRUPT, basic_file.fptr, []) ∧
    RS_CORRUPT ≠ RS_MEM_ERROR := by
  refine ⟨by decide, ?_, by decide⟩
  rw [rs_reverse_delta_build_failed _ _ _ _ _ (by simp)]
  rfl

/-- C3 (the failing inputs). When the basis cannot be read, `get_mfile` returns
`RS_IO_ERROR`, yet `rdiff_sig` goes on to call `rs_sig_file` on the empty file and returns
what that call returns (`RS_DONE` here), and `rdiff_patch` goes on to call
`rs_patch_file`; when the output cannot be written, `persist_mfile` returns `RS_IO_ERROR`,
yet `rdiff_sig`, `rdiff_delta` and `rdiff_patch` return `RS_DONE`. -/
theorem io_failure_not_propagated :
    get_mfile os_unreadable MFILE.zero (some "basis") = (RS_IO_ERROR, MFILE.zero) ∧
    rdiff_sig os_unreadable lib_done ⟨16, 8, false⟩ ["basis", "sig"] =
      ⟨RS_DONE, false,
        [Event.get_mfile (some "basis") RS_IO_ERROR, Event.malloc_mfile 0 RS_DONE,
          Event.rs_sig_file MFILE.zero MFILE.zero 16 8,
          Event.persist_mfile (some "sig") MFILE.zero RS_DONE]⟩ ∧
    rdiff_patch os_unreadable lib_done ⟨16, 8, false⟩ ["basis", "delta", "new"] =
      ⟨RS_DONE, false,
        [Event.get_mfile (some "basis") RS_IO_ERROR, Event.get_mfile (some "delta") RS_IO_ERROR,
          Event.malloc_mfile 0 RS_DONE, Event.rs_patch_file MFILE.zero MFILE.zero MFILE.zero,
          Event.persist_mfile (some "new") MFILE.zero RS_DONE]⟩ ∧
    persist_mfile os_unwritable (some "sig") ⟨List.replicate 6 0, 0, 0⟩ = RS_IO_ERROR ∧
    (rdiff_sig os_unwritable lib_done ⟨16, 8, false⟩ ["basis", "sig"]).result = RS_DONE ∧
    Event.persist_mfile (some "sig") ⟨List.replicate 6 0, 0, 0⟩ RS_IO_ERROR ∈
      (rdiff_sig os_unwritable lib_done ⟨16, 8, false⟩ ["basis", "sig"]).events ∧
    (rdiff_delta os_unwritable lib_done ⟨16, 8, false⟩ ["sig", "new", "delta"]).result
      = RS_DONE ∧
    Event.persist_mfile (some "delta") ⟨List.replicate 64 0, 0, 0⟩ RS_IO_ERROR ∈
      (rdiff_delta os_unwritable lib_done ⟨16, 8, false⟩ ["sig", "new", "delta"]).events ∧
    (rdiff_patch os_unwritable lib_done ⟨16, 8, false⟩ ["basis", "delta", "new"]).result
      = RS_DONE ∧
    Event.persist_mfile (some "new") ⟨List.replicate 128 0, 0, 0⟩ RS_IO_ERROR ∈
      (rdiff_patch os_unwritable lib_done ⟨16, 8, false⟩ ["basis", "delta", "new"]).events := by
  decide

theorem mem_finish_events (opcon : List String) (result : rs_result) (events : List Event)
    (e : Event) (h : e ∈ (finish opcon result events).events) :
    e ∈ events ∨ e = Event.usage "rdiff: too many arguments" ∨
      e = Event.exit RS_SYNTAX_ERROR := by
  unfold finish rdiff_no_more_args at h
  split at h
  · rename_i e' he'
    split at he'
    · cases he'
      simpa using h
    · cases he'
  · exact Or.inl h

/-- The call of `rs_sig_file` made by `rdiff_sig`: on the file `get_mfile` left and the
buffer `malloc_mfile` left. -/
theorem rdiff_sig_job_call (os : OS) (lib : Lib) (opts : Options) (opcon : List String) :
    Event.rs_sig_file (get_mfile os MFILE.zero opcon.head?).2
      (malloc_mfile os MFILE.zero ((get_mfile os MFILE.zero opcon.head?).2.len / 10)).2
      opts.block_len opts.strong_len ∈ (rdiff_sig os lib opts opcon).events := by
  unfold rdiff_sig
  simp only
  split_ifs <;> exact (finish_events _ _ _).subset (by simp [poptGetArg])

theorem malloc_mfile_len (os : OS) (n : Nat) : (malloc_mfile os MFILE.zero n).2.len ≤ n := by
  unfold malloc_mfile
  split_ifs <;> simp [MFILE.zero]

/-- The buffer `rdiff_delta` hands to `rs_delta_file` is never longer than the new
file. -/
theorem rdiff_delta_job_call (os : OS) (lib : Lib) (opts : Options) (opcon : List String)
    (sumset : rs_signature_t) (new_file delta_file : MFILE)
    (h : Event.rs_delta_file sumset new_file delta_file ∈
      (rdiff_delta os lib opts opcon).events) :
    delta_file.len ≤ new_file.len := by
  unfold rdiff_delta at h
  simp only at h
  split at h
  · simp at h
  · split_ifs at h
    · simp at h
    · simp at h
    · rcases mem_finish_events _ _ _ _ h with h | h | h
      · simp at h
        obtain ⟨-, h2, h3⟩ := h
        rw [h2, h3]
        exact malloc_mfile_len _ _
      · simp at h
      · simp at h
    · rcases mem_finish_events _ _ _ _ h with h | h | h
      · simp at h
        obtain ⟨-, h2, h3⟩ := h
        rw [h2, h3]
        exact malloc_mfile_len _ _
      · simp at h
      · simp at h

/-- X1. When the signature is loaded and `rs_build_hash_table` returns a result other than
`RS_DONE`, `rdiff_delta` returns that same result, having read and loaded the signature
and nothing more: the new file is not read and `rs_delta_file` is not called. -/
theorem rdiff_delta_build_error (os : OS) (lib : Lib) (opts : Options) (sig_name : String)
    (rest : List String)
    (hload : (lib.rs_loadsig_file (get_mfile os MFILE.zero (some sig_name)).2).1 = RS_DONE)
    (hbuild : lib.rs_build_hash_table
      (lib.rs_loadsig_file (get_mfile os MFILE.zero (some sig_name)).2).2 ≠ RS_DONE) :
    rdiff_delta os lib opts (sig_name :: rest) =
      ⟨lib.rs_build_hash_table
          (lib.rs_loadsig_file (get_mfile os MFILE.zero (some sig_name)).2).2, false,
        [Event.get_mfile (some sig_name) (get_mfile os MFILE.zero (some sig_name)).1,
          Event.rs_loadsig_file (get_mfile os MFILE.zero (some sig_name)).2,
          Event.rs_build_hash_table
            (lib.rs_loadsig_file (get_mfile os MFILE.zero (some sig_name)).2).2]⟩ := by
  unfold rdiff_delta poptGetArg
  simp only [List.head?_cons, List.tail_cons, hload, ne_eq, not_true_eq_false, if_false,
    hbuild, not_false_eq_true, if_true, List.cons_append, List.nil_append]

/-- X1 (witness). With the library whose hash table cannot be allocated, `rdiff_delta`
returns `RS_MEM_ERROR`. -/
theorem rdiff_delta_build_error_witness :
    rdiff_delta os_basis64 lib_no_memory ⟨16, 8, false⟩ ["sig", "new", "delta"] =
      ⟨RS_MEM_ERROR, false,
        [Event.get_mfile (some "sig") RS_DONE,
          Event.rs_loadsig_file ⟨List.replicate 64 0x41, 64, 0⟩,
          Event.rs_build_hash_table ⟨16, 8, [], []⟩]⟩ :=
  rdiff_delta_build_error os_basis64 lib_no_memory ⟨16, 8, false⟩ "sig" ["new", "delta"]
    (by decide) (by decide)

/-- C9 (the failing input). For the basis of 64 bytes of value `0x41` with `block_len = 16`
and `strong_len = 8`, `rdiff_sig` hands `rs_sig_file` a signature buffer of `64 / 10 = 6`
bytes, while the signature stream holds 4 records of 12 bytes after its header: 48 bytes
and the header, whatever the header's length. -/
theorem rdiff_sig_buffer_too_small (lib : Lib) (header_len : Nat) :
    Event.rs_sig_file ⟨List.replicate 64 0x41, 64, 0⟩ ⟨List.replicate 6 0, 6, 0⟩ 16 8 ∈
      (rdiff_sig os_basis64 lib ⟨16, 8, false⟩ ["basis", "sig"]).events ∧
    (64 + 16 - 1) / 16 = 4 ∧
    signature_stream_size header_len 64 16 8 = header_len + 48 ∧
    6 < signature_stream_size header_len 64 16 8 := by
  refine ⟨?_, by decide, ?_, ?_⟩
  · exact rdiff_sig_job_call os_basis64 lib ⟨16, 8, false⟩ ["basis", "sig"]
  · simp [signature_stream_size]
  · simp [signature_stream_size]

/-- C10 (the failing input). For a new file of 64 bytes and a signature of zero blocks,
`rdiff_delta` hands `rs_delta_file` a delta buffer of exactly 64 bytes, while a delta
stream in which nothing matches carries the `n` bytes of the new file inline besides its
header, the Literal instruction headers and the end-of-stream marker: more than `n` bytes,
for every `n`. -/
theorem rdiff_delta_buffer_too_small (header_len literal_headers end_extra n : Nat) :
    Event.rs_delta_file ⟨16, 8, [], []⟩ ⟨List.replicate 64 0x41, 64, 0⟩
        ⟨List.replicate 64 0, 64, 0⟩ ∈
      (rdiff_delta os_basis64 lib_done ⟨16, 8, false⟩ ["sig", "new", "delta"]).events ∧
    (∀ os lib opts opcon sumset new_file delta_file,
      Event.rs_delta_file sumset new_file delta_file ∈
        (rdiff_delta os lib opts opcon).events → delta_file.len ≤ new_file.len) ∧
    n < literal_delta_stream_size header_len literal_headers end_extra n ∧
    64 < literal_delta_stream_size header_len literal_headers end_extra 64 := by
  refine ⟨by decide, ?_, ?_, ?_⟩
  · intro os lib opts opcon sumset new_file delta_file
    exact rdiff_delta_job_call os lib opts opcon sumset new_file delta_file
  · unfold literal_delta_stream_size
    omega
  · unfold literal_delta_stream_size
    omega

/-! ## The scan on a concrete basis -/

/-- The scan of the concrete basis: windows at 0 (miss), 1 (match) and 3 (match) are
searched, entry 0 ends at 3, entry 1 keeps 99, the cursor stops at 5. -/
theorem demo_scan :
    (rs_reverse_delta demo_env demo_sig demo_basis demo_match_list 6).map
      (fun r => (r.result, r.fptr, r.match_list 0, r.match_list 1,
        r.calls.map (fun c => (c.fptr, c.answer)))) =
      some (RS_DONE, 5, 3, 99, [(0, none), (1, some 0), (3, some 0)]) := by
  rfl

/-- The scan at a cursor whose sum with `block_len` is not representable: with
`fptr = 2^64 - 1`, `len = 2` and `block_len = 2` the sum of the loop condition wraps to 1,
the loop is entered, one search is made at offset `2^64 - 1` and, after the miss, the
cursor wraps to 0, where the loop stops. -/
theorem scan_wraps_in_size_t :
    (rs_reverse_delta demo_env demo_sig ⟨[1, 2], 2, 2 ^ 64 - 1⟩ demo_match_list 1).map
      (fun r => (r.result, r.fptr, r.calls.map (fun c => (c.fptr, c.answer)))) =
      some (RS_DONE, 0, [(2 ^ 64 - 1, none)]) := by
  decide

/-- The scan of the basis of exactly one block, with the hash table built: the block is
not searched and the function returns `RS_DONE`. -/
theorem demo_one_block_scan :
    (rs_reverse_delta demo_env demo_sig demo_one_block demo_match_list 2).map
      (fun r => (r.result, r.fptr, r.match_list 0, r.calls)) = some (RS_DONE, 0, 99, []) := by
  rfl

/-! ## Round trip through the whole-file API -/

theorem chunks_flatten (n : Nat) (hn : 1 ≤ n) (fuel : Nat) (l : List Nat)
    (h : l.length ≤ fuel) : (chunks n fuel l).flatten = l := by
  induction fuel generalizing l with
  | zero =>
    have : l = [] := List.length_eq_zero.1 (Nat.le_zero.1 h)
    simp [chunks, this]
  | succ fuel ih =>
    unfold chunks
    split_ifs with hl
    · simp [hl]
    · rw [List.flatten_cons, ih _ (by rw [List.length_drop]; omega), List.take_append_drop]

theorem chunks_getElem (n : Nat) (hn : 1 ≤ n) (fuel : Nat) (l : List Nat)
    (h : l.length ≤ fuel) (i : Nat) (c : List Nat) (hc : (chunks n fuel l)[i]? = some c) :
    c = (l.drop (i * n)).take n ∧ i * n < l.length := by
  induction fuel generalizing l i with
  | zero => simp [chunks] at hc
  | succ fuel ih =>
    unfold chunks at hc
    split_ifs at hc with hl
    · simp at hc
    · cases i with
      | zero =>
        simp only [List.getElem?_cons_zero, Option.some.injEq] at hc
        refine ⟨by simp [← hc], ?_⟩
        have := List.length_pos.2 hl
        omega
      | succ i =>
        rw [List.getElem?_cons_succ] at hc
        obtain ⟨h1, h2⟩ := ih (l.drop n) (by rw [List.length_drop]; omega) i hc
        rw [List.length_drop] at h2
        rw [List.drop_drop] at h1
        have e : (i + 1) * n = n + i * n := by ring
        rw [e]
        exact ⟨h1, by omega⟩

theorem patch_loop_literals (basis : List Nat) (cs : List (List Nat)) (rest : List Instruction)
    (out : List Nat) :
    patch_loop basis (cs.map Instruction.Literal ++ rest) out =
      patch_loop basis rest (out ++ cs.flatten) := by
  induction cs generalizing out with
  | nil => simp
  | cons c cs ih =>
    show patch_loop basis (cs.map Instruction.Literal ++ rest) (out ++ c) = _
    rw [ih, List.flatten_cons, List.append_assoc]

theorem patch_loop_flush (basis : List Nat) (literal_max : Nat) (hlit : 1 ≤ literal_max)
    (pending : List Nat) (rest : List Instruction) (out : List Nat) :
    patch_loop basis (flush_literal literal_max pending ++ rest) out =
      patch_loop basis rest (out ++ pending) := by
  unfold flush_literal
  rw [patch_loop_literals, chunks_flatten _ hlit _ _ le_rfl]

/-- A reported match is a block whose stored checksums equal those of the window. -/
theorem rs_search_for_block_sound (digest : List Nat → List Nat) (weak_sum : Nat)
    (inbuf : List Nat) (block_len : Nat) (sig : rs_signature_t) (match_pos : Nat)
    (h : rs_search_for_block digest weak_sum inbuf block_len sig = some match_pos) :
    ∃ i strong, match_pos = i * sig.block_len ∧
      sig.block_sigs[i]? = some (weak_sum, strong) ∧
      strong = rs_calc_strong_sum digest sig.strong_sum_len (inbuf.take block_len) := by
  unfold rs_search_for_block at h
  simp only [Option.map_eq_some'] at h
  obtain ⟨i, hi, rfl⟩ := h
  have hm := List.find?_some hi
  unfold candidate_matches at hm
  split at hm
  · rename_i w s hws
    simp only [Bool.and_eq_true, beq_iff_eq] at hm
    exact ⟨i, s, rfl, by rw [hws, hm.1], hm.2⟩
  · exact absurd hm (by simp)

theorem take_eq_window (l : List Nat) (k : Nat) : l.take k = window l 0 k := by
  simp [window]

theorem tail_take_eq_window (l : List Nat) (k : Nat) : l.tail.take k = window l 1 k := by
  simp [window]

/-- The weak checksum the encoder passes to the search is the checksum of the current
window. -/
theorem delta_weak_fresh (input : List Nat) (block_len : Nat) (weak_sum : Rollsum)
    (hbl : 1 ≤ block_len) (hlen : block_len ≤ input.length)
    (hweak : weak_sum = RollsumInit ∨ weak_sum = fresh_sum (input.take block_len)) :
    (if weak_sum.count = 0 then RollsumUpdate weak_sum input block_len else weak_sum) =
      fresh_sum (input.take block_len) := by
  rcases hweak with h | h
  · rw [h, if_pos (by rfl)]
    have := update_fresh input 0 block_len
    simpa [window] using this
  · have hcount : weak_sum.count = block_len := by
      rw [h, fresh_sum_count, List.length_take]
      omega
    rw [if_neg (by omega), h]

/-- Rotating the checksum of the current window gives the checksum of the next one. -/
theorem delta_rotate_fresh (input : List Nat) (block_len : Nat) (hbl : 1 ≤ block_len)
    (hlen : block_len < input.length) :
    RollsumRotate (fresh_sum (input.take block_len)) (input.headD 0)
        (input.getD block_len 0) = fresh_sum (input.tail.take block_len) := by
  obtain ⟨k, rfl⟩ : ∃ k, block_len = k + 1 := ⟨block_len - 1, by omega⟩
  rw [take_eq_window, tail_take_eq_window, window_cons _ _ _ (by omega),
    window_snoc _ _ _ (by omega)]
  have e1 : input.headD 0 = input.getD 0 0 := by
    cases input <;> rfl
  have e2 : input.getD (k + 1) 0 = input.getD (1 + k) 0 := by rw [Nat.add_comm]
  rw [e1, e2]
  exact rotate_fresh _ _ _

/-- The encoder finishes, and patching the basis with its delta writes the pending literal
followed by the remaining input, provided every match the search reports is a basis range
equal to the window. -/
theorem delta_loop_patch (digest : List Nat → List Nat) (sig : rs_signature_t)
    (literal_max : Nat) (basis new_file : List Nat) (hbl : 1 ≤ sig.block_len)
    (hlit : 1 ≤ literal_max)
    (hsound : ∀ input, input <:+ new_file → sig.block_len ≤ input.length → ∀ match_pos,
      rs_search_for_block digest (RollsumDigest (fresh_sum (input.take sig.block_len))) input
        sig.block_len sig = some match_pos →
      match_pos + sig.block_len ≤ basis.length ∧
        (basis.drop match_pos).take sig.block_len = input.take sig.block_len)
    (fuel : Nat) (input pending : List Nat) (weak_sum : Rollsum)
    (hsuffix : input <:+ new_file) (hfuel : input.length < fuel)
    (hweak : input.length < sig.block_len ∨ weak_sum = RollsumInit ∨
      weak_sum = fresh_sum (input.take sig.block_len)) :
    ∃ delta, delta_loop digest sig literal_max fuel input pending weak_sum = some delta ∧
      ∀ out, patch_loop basis delta out = (RS_DONE, out ++ pending ++ input) := by
  induction fuel generalizing input pending weak_sum with
  | zero => omega
  | succ fuel ih =>
    unfold delta_loop
    by_cases hshort : input.length < sig.block_len
    · rw [if_pos hshort]
      refine ⟨_, rfl, fun out => ?_⟩
      have := patch_loop_flush basis literal_max hlit (pending ++ input) [] out
      rw [List.append_nil] at this
      rw [this, List.append_assoc]
      rfl
    · rw [if_neg hshort]
      have hlen : sig.block_len ≤ input.length := by omega
      have hw := delta_weak_fresh input sig.block_len weak_sum hbl hlen
        (hweak.resolve_left hshort)
      simp only [hw]
      cases hs : rs_search_for_block digest
          (RollsumDigest (fresh_sum (input.take sig.block_len))) input sig.block_len sig with
      | some match_pos =>
        obtain ⟨hb1, hb2⟩ := hsound input hsuffix hlen match_pos hs
        obtain ⟨rest, hr1, hr2⟩ := ih (input.drop sig.block_len) [] RollsumInit
          ((List.drop_suffix _ _).trans hsuffix) (by rw [List.length_drop]; omega)
          (Or.inr (Or.inl rfl))
        refine ⟨flush_literal literal_max pending ++
          Instruction.Copy match_pos sig.block_len :: rest,
          by simp only [hr1, Option.map_some'], fun out => ?_⟩
        rw [patch_loop_flush basis literal_max hlit]
        show (if match_pos + sig.block_len ≤ basis.length then _ else _) = _
        rw [if_pos hb1, hr2, hb2, List.append_nil, List.append_assoc (out ++ pending),
          List.take_append_drop]
      | none =>
        have hne : input ≠ [] := by
          intro h
          rw [h] at hlen
          simp at hlen
          omega
        obtain ⟨a, tl, rfl⟩ := List.exists_cons_of_ne_nil hne
        obtain ⟨rest, hr1, hr2⟩ := ih tl (pending ++ [a])
          (RollsumRotate (fresh_sum ((a :: tl).take sig.block_len)) a
            ((a :: tl).getD sig.block_len 0))
          ((List.tail_suffix _).trans hsuffix) (by simpa using hfuel)
          (by
            by_cases hlast : sig.block_len < (a :: tl).length
            · exact Or.inr (Or.inr (delta_rotate_fresh (a :: tl) sig.block_len hbl hlast))
            · left
              simp only [List.length_cons] at hlast hlen
              omega)
        refine ⟨rest, hr1, fun out => ?_⟩
        rw [hr2]
        simp

theorem chunks_length_le (n fuel : Nat) (l b : List Nat) (hb : b ∈ chunks n fuel l) :
    b.length ≤ n := by
  induction fuel generalizing l with
  | zero => simp [chunks] at hb
  | succ fuel ih =>
    unfold chunks at hb
    split_ifs at hb with hl
    · simp at hb
    · rcases List.mem_cons.1 hb with rfl | hb
      · simp
      · exact ih _ hb

/-- C1 (amended). Round trip through the whole-file API, provided no window of `N`
collides with a different block of `B`: whenever a window of `block_len` bytes of `N` and a
block of `B` have the same weak checksum and the same truncated strong checksum, they are
the same bytes.  Then for every `block_len >= 1` and `strong_len` the signature of `B` is
written, loaded and indexed, the delta for `N` is written, and `rs_patch_file` applied to
`B` and the delta returns `RS_DONE` and writes exactly `N`. -/
theorem whole_file_round_trip (digest : List Nat → List Nat) (literal_max : Nat)
    (B N : List Nat) (block_len strong_len : Nat) (hbl : 1 ≤ block_len)
    (hlit : 1 ≤ literal_max)
    (hfree : ∀ w b, w <:+: N → w.length = block_len → b ∈ basis_blocks block_len B →
      rs_calc_weak_sum w = rs_calc_weak_sum b →
      rs_calc_strong_sum digest strong_len w = rs_calc_strong_sum digest strong_len b →
      w = b) :
    round_trip digest literal_max B N block_len strong_len := by
  have hsound : ∀ input, input <:+ N → block_len ≤ input.length → ∀ match_pos,
      rs_search_for_block digest (RollsumDigest (fresh_sum (input.take block_len))) input
        block_len (rs_build_hash_table (rs_loadsig_file
          (rs_sig_file digest B block_len strong_len).2).2).2 = some match_pos →
      match_pos + block_len ≤ B.length ∧
        (B.drop match_pos).take block_len = input.take block_len := by
    intro input hsuf hlen match_pos hs
    obtain ⟨i, strong, rfl, hi, hstrong⟩ := rs_search_for_block_sound _ _ _ _ _ _ hs
    have hrec : ((basis_blocks block_len B).map fun block =>
        (rs_calc_weak_sum block, rs_calc_strong_sum digest strong_len block))[i]? =
        some (RollsumDigest (fresh_sum (input.take block_len)), strong) := hi
    rw [List.getElem?_map] at hrec
    cases hc : (basis_blocks block_len B)[i]? with
    | none => rw [hc] at hrec; simp at hrec
    | some c =>
      rw [hc] at hrec
      simp only [Option.map_some', Option.some.injEq, Prod.mk.injEq] at hrec
      obtain ⟨hw, hst⟩ := hrec
      have hwl : (input.take block_len).length = block_len := by
        rw [List.length_take]
        omega
      have hwc : input.take block_len = c := by
        refine hfree _ _ ((List.take_prefix _ _).isInfix.trans hsuf.isInfix) hwl
          (List.getElem?_mem hc) hw.symm ?_
        rw [hst]
        exact hstrong.symm
      obtain ⟨h1, h2⟩ := chunks_getElem block_len hbl B.length B le_rfl i c hc
      have hcl : c.length = block_len := by rw [← hwc, hwl]
      rw [h1, List.length_take, List.length_drop] at hcl
      show i * block_len + block_len ≤ B.length ∧
        (B.drop (i * block_len)).take block_len = input.take block_len
      exact ⟨by omega, by rw [hwc, h1]⟩
  obtain ⟨D, hD1, hD2⟩ := delta_loop_patch digest
    (rs_build_hash_table (rs_loadsig_file (rs_sig_file digest B block_len strong_len).2).2).2
    literal_max B N hbl hlit hsound (N.length + 1) N [] RollsumInit (List.suffix_refl N)
    (Nat.lt_succ_self _) (Or.inr (Or.inl rfl))
  refine ⟨_, _, _, D, rfl, rfl, rfl, ?_, ?_⟩
  · exact congrArg (Option.map fun delta => (RS_DONE, delta)) hD1
  · have := hD2 []
    simpa [rs_patch_file, rs_patch_begin, rs_whole_run] using this

/-- The spec's scenario with the identity as digest (16 bytes kept): the signature has 4
records, the delta is `scenario_delta`, and patching the basis with it writes the new
file. -/
theorem scenario_round_trip :
    (rs_sig_file id scenario_basis 16 16).2.records.length = 4 ∧
    rs_delta_file id 8 (rs_build_hash_table (rs_loadsig_file
        (rs_sig_file id scenario_basis 16 16).2).2).2 scenario_new =
      some (RS_DONE, scenario_delta) ∧
    rs_patch_file scenario_basis scenario_delta = (RS_DONE, scenario_new) :=
  by decide

/-- C1 (witness). The round trip of the spec's scenario, with the identity as digest and
16 bytes of it kept, which no two different blocks share. -/
theorem whole_file_round_trip_witness : round_trip id 8 scenario_basis scenario_new 16 16 :=
  whole_file_round_trip id 8 scenario_basis scenario_new 16 16 (by decide) (by decide)
    (by
      intro w b _ hw hb _ hs
      have hbl := chunks_length_le _ _ _ _ hb
      have e1 : rs_calc_strong_sum id 16 w = w :=
        List.take_of_length_le (by show w.length ≤ 16; omega)
      have e2 : rs_calc_strong_sum id 16 b = b := List.take_of_length_le hbl
      rw [e1, e2] at hs
      exact hs)

/-! ## The search through the hash table, and a checksum collision -/

theorem next_power_pos (count fuel p : Nat) (hp : 0 < p) : 0 < next_power count fuel p := by
  induction fuel generalizing p with
  | zero => exact hp
  | succ fuel ih =>
    unfold next_power
    split_ifs
    · exact hp
    · exact ih _ (by omega)

theorem table_size_pos (count : Nat) : 0 < table_size count :=
  next_power_pos count count 1 Nat.one_pos

theorem find?_ext (l : List Nat) (p q : Nat → Bool) (h : ∀ a ∈ l, p a = q a) :
    l.find? p = l.find? q := by
  induction l with
  | nil => rfl
  | cons a l ih =>
    simp only [List.find?_cons, h a (List.mem_cons_self _ _)]
    rw [ih fun b hb => h b (List.mem_cons_of_mem _ hb)]

theorem candidate_matches_weak (digest : List Nat → List Nat) (sig : rs_signature_t)
    (weak_sum : Nat) (block : List Nat) (i : Nat)
    (h : candidate_matches digest sig weak_sum block i = true) :
    block_weak sig i = weak_sum := by
  unfold candidate_matches at h
  unfold block_weak
  split at h
  · rename_i w s hws
    simp only [Bool.and_eq_true, beq_iff_eq] at h
    simp [hws, h.1]
  · exact absurd h (by simp)

/-- The search through the hash table finds the first block, in basis order, whose weak
and strong checksums both match (the lowest basis offset among matching blocks). -/
theorem rs_search_for_block_indexed (digest : List Nat → List Nat) (weak_sum : Nat)
    (inbuf : List Nat) (block_len : Nat) (sig : rs_signature_t) :
    rs_search_for_block digest weak_sum inbuf block_len (rs_build_hash_table sig).2 =
      ((List.range sig.block_sigs.length).find?
        (candidate_matches digest sig weak_sum (inbuf.take block_len))).map
        fun ordinal => ordinal * sig.block_len := by
  have hpos := table_size_pos sig.block_sigs.length
  have hlt : weak_sum % table_size sig.block_sigs.length < table_size sig.block_sigs.length :=
    Nat.mod_lt _ hpos
  have htab : (rs_build_hash_table sig).2.tag_table =
      (List.range (table_size sig.block_sigs.length)).map fun bucket =>
        (List.range sig.block_sigs.length).filter fun i =>
          decide (block_weak sig i % table_size sig.block_sigs.length = bucket) := rfl
  have hcand : candidate_matches digest (rs_build_hash_table sig).2 weak_sum
      (inbuf.take block_len) = candidate_matches digest sig weak_sum (inbuf.take block_len) :=
    rfl
  unfold rs_search_for_block
  simp only [htab, hcand, List.length_map, List.length_range, List.getD_eq_getElem?_getD,
    List.getElem?_map, List.getElem?_range hlt, Option.map_some', Option.getD_some,
    List.find?_filter]
  congr 1
  apply find?_ext
  intro i _
  cases hq : candidate_matches digest sig weak_sum (inbuf.take block_len) i with
  | false => simp
  | true => simp [candidate_matches_weak _ _ _ _ _ hq]

theorem chunks_nil (n fuel : Nat) : chunks n fuel [] = [] := by
  cases fuel <;> simp [chunks]

theorem basis_blocks_single (block_len : Nat) (X : List Nat) (hbl : 1 ≤ block_len)
    (hX : X.length = block_len) : basis_blocks block_len X = [X] := by
  unfold basis_blocks
  obtain ⟨k, hk⟩ : ∃ k, X.length = k + 1 := ⟨X.length - 1, by omega⟩
  have hne : X ≠ [] := by
    intro h
    rw [h] at hk
    simp at hk
  rw [hk]
  unfold chunks
  rw [if_neg hne, List.take_of_length_le (by omega), List.drop_eq_nil_of_le (by omega),
    chunks_nil]

theorem flush_literal_nil (literal_max : Nat) : flush_literal literal_max [] = [] := by
  simp [flush_literal, chunks_nil]

theorem delta_loop_short (digest : List Nat → List Nat) (sig : rs_signature_t)
    (literal_max fuel : Nat) (input pending : List Nat) (weak_sum : Rollsum)
    (h : input.length < sig.block_len) :
    delta_loop digest sig literal_max (fuel + 1) input pending weak_sum =
      some (flush_literal literal_max (pending ++ input)) := by
  unfold delta_loop
  rw [if_pos h]

theorem delta_loop_match (digest : List Nat → List Nat) (sig : rs_signature_t)
    (literal_max fuel : Nat) (input pending : List Nat) (weak_sum : Rollsum) (match_pos : Nat)
    (h : ¬ input.length < sig.block_len)
    (hs : rs_search_for_block digest (RollsumDigest
        (if weak_sum.count = 0 then RollsumUpdate weak_sum input sig.block_len else weak_sum))
      input sig.block_len sig = some match_pos) :
    delta_loop digest sig literal_max (fuel + 1) input pending weak_sum =
      (delta_loop digest sig literal_max fuel (input.drop sig.block_len) [] RollsumInit).map
        fun rest =>
          flush_literal literal_max pending ++
            Instruction.Copy match_pos sig.block_len :: rest := by
  rw [delta_loop, if_neg h]
  simp only [hs]

/-- When the single block `X` of a basis and a new file `Y` of the same length have the
same weak checksum and the same truncated strong checksum, the delta for `Y` is one copy of
block 0, and patching writes `X`. -/
theorem collision_delta (digest : List Nat → List Nat) (literal_max : Nat) (X Y : List Nat)
    (block_len strong_len : Nat) (hbl : 1 ≤ block_len) (hX : X.length = block_len)
    (hY : Y.length = block_len) (hweak : rs_calc_weak_sum Y = rs_calc_weak_sum X)
    (hstrong : rs_calc_strong_sum digest strong_len Y = rs_calc_strong_sum digest strong_len X) :
    rs_delta_file digest literal_max (rs_build_hash_table (rs_loadsig_file
        (rs_sig_file digest X block_len strong_len).2).2).2 Y =
      some (RS_DONE, [Instruction.Copy 0 block_len]) ∧
    rs_patch_file X [Instruction.Copy 0 block_len] = (RS_DONE, X) := by
  have hsum : (rs_loadsig_file (rs_sig_file digest X block_len strong_len).2).2 =
      ⟨block_len, strong_len,
        [(rs_calc_weak_sum X, rs_calc_strong_sum digest strong_len X)], []⟩ := by
    simp [rs_loadsig_file, rs_loadsig_begin, rs_sig_file, rs_sig_begin, rs_whole_run,
      basis_blocks_single block_len X hbl hX]
  have htake : Y.take block_len = Y := List.take_of_length_le (by omega)
  have hsearch : rs_search_for_block digest (RollsumDigest (fresh_sum (Y.take block_len))) Y
      block_len (rs_build_hash_table (rs_loadsig_file
        (rs_sig_file digest X block_len strong_len).2).2).2 = some 0 := by
    rw [rs_search_for_block_indexed, hsum, htake]
    have hc : candidate_matches digest
        ⟨block_len, strong_len,
          [(rs_calc_weak_sum X, rs_calc_strong_sum digest strong_len X)], []⟩
        (RollsumDigest (fresh_sum Y)) Y 0 = true := by
      have hw : rs_calc_weak_sum X = RollsumDigest (fresh_sum Y) := hweak.symm
      simp [candidate_matches, hw, hstrong]
    simp [List.range_succ, hc]
  constructor
  · unfold rs_delta_file rs_whole_run rs_delta_begin
    simp only
    obtain ⟨k, hk⟩ : ∃ k, Y.length = k + 1 := ⟨Y.length - 1, by omega⟩
    have hbl' : (rs_build_hash_table (rs_loadsig_file
        (rs_sig_file digest X block_len strong_len).2).2).2.block_len = block_len := rfl
    have hdrop : Y.drop block_len = [] := List.drop_eq_nil_of_le (by omega)
    have hw := delta_weak_fresh Y block_len RollsumInit hbl (by omega) (Or.inl rfl)
    rw [delta_loop_match digest _ literal_max Y.length Y [] RollsumInit 0
      (by rw [hbl']; omega) (by rw [hbl', hw]; exact hsearch), hbl', hdrop, hk,
      delta_loop_short digest _ literal_max k [] [] RollsumInit
        (by rw [hbl', List.length_nil]; omega)]
    simp [flush_literal_nil]
  · simp [rs_patch_file, rs_patch_begin, rs_whole_run, patch_loop, hX,
      List.take_of_length_le (Nat.le_of_eq hX)]

theorem collision_family_weak (i : Nat) (h : i < 289) :
    rs_calc_weak_sum (collision_family i) = rs_calc_weak_sum (collision_family 0) := by
  have hb : byte_sum (collision_family i) = 200 := by
    simp only [collision_family, byte_sum]
    omega
  have hp : partial_sum (collision_family i) = 500 := by
    simp only [collision_family, partial_sum, List.length_cons, List.length_nil]
    omega
  unfold rs_calc_weak_sum
  rw [fresh_digest_eq, fresh_digest_eq, fresh_sum_eq, fresh_sum_eq, hb, hp]
  rfl

theorem collision_family_injective (i j : Nat)
    (h : collision_family i = collision_family j) : i = j := by
  simp only [collision_family, List.cons.injEq, and_true] at h
  omega

/-- C1 (counterexample). No digest with byte values makes the round trip hold for every
`B`, `N`, `block_len >= 1` and valid `strong_len`: with `block_len = 4` and
`strong_len = 1`, two different windows among 289 with the same weak checksum have the
same first digest byte; with one as the basis and the other as the new file, the delta is
a copy of block 0 and `rs_patch_file` writes the basis, not the new file. -/
theorem round_trip_fails_on_collision :
    ¬ ∃ (digest : List Nat → List Nat) (literal_max : Nat),
      (∀ block, ∀ x ∈ digest block, x < 256) ∧ (∀ block, 1 ≤ (digest block).length) ∧
      ∀ B N block_len strong_len, 1 ≤ block_len → 1 ≤ strong_len →
        (∀ block, strong_len ≤ (digest block).length) →
        round_trip digest literal_max B N block_len strong_len := by
  rintro ⟨digest, literal_max, hbytes, hlen, hall⟩
  have hstrong : ∀ w, rs_calc_strong_sum digest 1 w = [(digest w).headD 0] ∧
      (digest w).headD 0 < 256 := by
    intro w
    have h1 := hlen w
    have h2 := hbytes w
    unfold rs_calc_strong_sum
    cases hd : digest w with
    | nil => rw [hd] at h1; simp at h1
    | cons a t =>
      rw [hd] at h2
      exact ⟨by simp, h2 a (List.mem_cons_self _ _)⟩
  obtain ⟨x, y, hxy, hg⟩ := Fintype.exists_ne_map_eq_of_card_lt
    (fun i : Fin 289 => (⟨(digest (collision_family i)).headD 0 % 256,
      Nat.mod_lt _ (by decide)⟩ : Fin 256)) (by rw [Fintype.card_fin, Fintype.card_fin]; omega)
  have hg' : (digest (collision_family x)).headD 0 = (digest (collision_family y)).headD 0 := by
    have := congrArg Fin.val hg
    simp only at this
    rw [Nat.mod_eq_of_lt (hstrong _).2, Nat.mod_eq_of_lt (hstrong _).2] at this
    exact this
  have hcol := collision_delta digest literal_max (collision_family x) (collision_family y) 4 1
    (by decide) rfl rfl
    ((collision_family_weak y y.2).trans (collision_family_weak x x.2).symm)
    (by rw [(hstrong _).1, (hstrong _).1, hg'])
  obtain ⟨S, sumset, sig, D, h1, h2, h3, h4, h5⟩ :=
    hall (collision_family x) (collision_family y) 4 1 (by decide) (by decide) hlen
  have e1 := congrArg Prod.snd h1
  simp only at e1
  subst e1
  have e2 := congrArg Prod.snd h2
  simp only at e2
  subst e2
  have e3 := congrArg Prod.snd h3
  simp only at e3
  subst e3
  rw [hcol.1] at h4
  simp only [Option.some.injEq, Prod.mk.injEq, true_and] at h4
  subst h4
  rw [hcol.2] at h5
  simp only [Prod.mk.injEq, true_and] at h5
  exact hxy (Fin.ext (collision_family_injective _ _ h5))

end Librsync

